import Mathlib

/-!
Verification development for the framebreaker core.

Shallow embedding conventions:
- Rust `f64` values that are only compared and combined arithmetically
  (r values, thresholds, durations in seconds, signal scores) are modelled
  as `ℚ`; the literals involved (0.15, 0.25, 0.30, 8.0, the ΔC weights and
  cut points) are exact in `ℚ` and all comparisons in the source are
  order comparisons, which agree.
- `f64` fields that are only serialized (`r_final`, `dc_final` in the
  proof payload) are modelled by their 64-bit big-endian bit pattern as a
  `Nat`; the external IEEE encoding is abstracted as a parameter `f64bits`.
- `std::time::Instant` is modelled as a `Nat` (milliseconds for the engine,
  abstract time units for the window); `Instant::now()` becomes an explicit
  `now` parameter.  `duration_since` saturates at zero in Rust, matching
  truncated `Nat` subtraction.
- byte arrays `[u8; n]` are `List Nat` whose well-formedness (length, bytes
  < 256) is recorded in explicit `wf` predicates mirroring the Rust types.
- the injected collaborators (SHA-256 from the `sha2` crate, `sign_fn`,
  `verify_fn`) are function parameters, as the source itself treats the
  signer and verifier; the incremental `hasher.update` sequence is modelled
  as the hash of the concatenated byte stream.
-/

namespace Framebreaker

/-- Constant from src/lib.rs: r threshold for LOCKED state. -/
def R_THRESHOLD_LOCKED : ℚ := 0.15

/-- Constant from src/lib.rs: r threshold for APPROACHING state. -/
def R_THRESHOLD_APPROACHING : ℚ := 0.25

/-- Constant from src/lib.rs: r threshold for DRIFT state. -/
def R_THRESHOLD_DRIFT : ℚ := 0.30

/-- Constant from src/lib.rs: minimum stable duration for LOCKED (ms). -/
def STABILITY_DURATION_MS : Nat := 8000

/-- Constant from src/lib.rs: minimum LOCKED duration before proof (seconds). -/
def LOCKED_MIN_DURATION_SECS : ℚ := 8.0

/-- Constant from src/types/turn.rs: window duration for ΔC calculation. -/
def WINDOW_DURATION_SECS : Nat := 30

/-- Constant from src/types/turn.rs: maximum turns per speaker in window. -/
def MAX_TURNS_PER_SPEAKER : Nat := 10

/-- Turn (src/types/turn.rs).  `speaker` and `text` are UTF-8 byte lists;
`timestamp` is `Option Nat` exactly as the Rust field is `Option<Instant>`. -/
structure Turn where
  speaker : List Nat
  text : List Nat
  timestamp : Option Nat
  r : ℚ
deriving DecidableEq

/-- TurnPair (src/types/turn.rs): two consecutive turns from different speakers. -/
structure TurnPair where
  first : Turn
  second : Turn
deriving DecidableEq

/-- ConversationWindow (src/types/turn.rs): sliding window of turns. -/
structure ConversationWindow where
  turns : List Turn
  window_duration : Nat
deriving DecidableEq

namespace ConversationWindow

/-- ConversationWindow::new with the default 30-unit duration. -/
def new : ConversationWindow :=
  { turns := [], window_duration := WINDOW_DURATION_SECS }

/-- Age-eviction loop of ConversationWindow::prune: pop expired turns from
the front, stopping at the first unexpired or timestamp-less turn. -/
def pruneAge (now dur : Nat) : List Turn → List Turn
  | [] => []
  | t :: rest =>
    match t.timestamp with
    | some ts => if now - ts > dur then pruneAge now dur rest else t :: rest
    | none => t :: rest

/-- Mark pass of the per-speaker-cap stage of ConversationWindow::prune
(turn.rs:112-123): iterating newest to oldest, an index is marked exactly
when more than `cap` same-speaker entries exist at or after it.  The
source pushes marks in decreasing order and then iterates
`to_remove.into_iter().rev()`, so the removal loop consumes them in
increasing order; this function returns that increasing sequence. -/
def markedIndices (cap : Nat) : List Turn → List Nat
  | [] => []
  | t :: rest =>
    if rest.countP (fun u => decide (u.speaker = t.speaker)) + 1 > cap then
      0 :: (markedIndices cap rest).map (· + 1)
    else
      (markedIndices cap rest).map (· + 1)

/-- Removal loop of ConversationWindow::prune (turn.rs:125-127): call
`self.turns.remove(i)` for each marked index in increasing order, with no
adjustment for the shift earlier removals cause.  `VecDeque::remove` on an
out-of-range index is a no-op returning None, matching `List.eraseIdx`. -/
def removeMarked (ts : List Turn) (idxs : List Nat) : List Turn :=
  idxs.foldl (fun l i => l.eraseIdx i) ts

/-- Per-speaker-cap stage of ConversationWindow::prune: the mark pass
followed by the unadjusted increasing-index removal loop.  When two or more
indices are marked, the shifts make later removals hit entries other than
the marked ones. -/
def pruneSpeakerCap (cap : Nat) (ts : List Turn) : List Turn :=
  removeMarked ts (markedIndices cap ts)

/-- Intended keep-the-newest-cap semantics: keep an entry iff at most `cap`
same-speaker entries exist from it to the end.  `pruneSpeakerCap` provably
coincides with this exactly when at most one index is marked, which is the
case on every window whose speakers were within the cap before the append. -/
def capFilter (cap : Nat) : List Turn → List Turn
  | [] => []
  | t :: rest =>
    if rest.countP (fun u => decide (u.speaker = t.speaker)) + 1 ≤ cap then
      t :: capFilter cap rest
    else
      capFilter cap rest

/-- ConversationWindow::prune: age eviction then the per-speaker cap. -/
def prune (w : ConversationWindow) (now : Nat) : ConversationWindow :=
  { w with turns :=
      pruneSpeakerCap MAX_TURNS_PER_SPEAKER (pruneAge now w.window_duration w.turns) }

/-- ConversationWindow::add_turn: append, then prune. -/
def add_turn (w : ConversationWindow) (now : Nat) (turn : Turn) : ConversationWindow :=
  prune { w with turns := w.turns ++ [turn] } now

/-- Scan of ConversationWindow::paired_turns over `turns.windows(2)`. -/
def adjPairs : List Turn → List TurnPair
  | [] => []
  | [_] => []
  | a :: b :: rest =>
    if a.speaker ≠ b.speaker then
      { first := a, second := b } :: adjPairs (b :: rest)
    else
      adjPairs (b :: rest)

/-- ConversationWindow::paired_turns. -/
def paired_turns (w : ConversationWindow) : List TurnPair :=
  adjPairs w.turns

/-- ConversationWindow::speaker_count: number of distinct speakers. -/
def speaker_count (w : ConversationWindow) : Nat :=
  (w.turns.map Turn.speaker).dedup.length

end ConversationWindow

/-- Weight of the thematic-drift signal (src/types/dc.rs). -/
def DC_WEIGHT_THEMATIC : ℚ := 0.31

/-- Weight of the emotional-volatility signal. -/
def DC_WEIGHT_EMOTIONAL : ℚ := 0.28

/-- Weight of the logical-breaks signal. -/
def DC_WEIGHT_LOGICAL : ℚ := 0.22

/-- Weight of the Q&A-mismatch signal. -/
def DC_WEIGHT_QA_MISMATCH : ℚ := 0.12

/-- Weight of the reference-decay signal. -/
def DC_WEIGHT_REFERENCE : ℚ := 0.07

/-- Classification cut point: good coherence below this. -/
def DC_THRESHOLD_LOCKED : ℚ := 0.10

/-- Classification cut point (middle band boundary in the source). -/
def DC_THRESHOLD_APPROACHING : ℚ := 0.15

/-- Classification cut point: high drift at or above this. -/
def DC_THRESHOLD_DRIFT : ℚ := 0.20

/-- DcSignals (src/types/dc.rs): the five raw sub-signals. -/
structure DcSignals where
  thematic_drift : ℚ
  emotional_volatility : ℚ
  logical_breaks : ℚ
  qa_mismatch : ℚ
  reference_decay : ℚ
deriving DecidableEq

namespace DcSignals

/-- DcSignals::zero. -/
def zero : DcSignals :=
  { thematic_drift := 0, emotional_volatility := 0, logical_breaks := 0,
    qa_mismatch := 0, reference_decay := 0 }

/-- DcSignals::weighted_sum. -/
def weighted_sum (s : DcSignals) : ℚ :=
  s.thematic_drift * DC_WEIGHT_THEMATIC
    + s.emotional_volatility * DC_WEIGHT_EMOTIONAL
    + s.logical_breaks * DC_WEIGHT_LOGICAL
    + s.qa_mismatch * DC_WEIGHT_QA_MISMATCH
    + s.reference_decay * DC_WEIGHT_REFERENCE

end DcSignals

/-- DcReason (src/types/dc.rs). -/
inductive DcReason where
  | R010_DC_COMPUTED
  | R014_DC_HIGH_DRIFT
  | R015_DC_LOW_COHERENT
  | R011_DC_UNKNOWN_SINGLE_SPEAKER
  | R012_DC_UNKNOWN_INSUFFICIENT_TURNS
  | R016_DC_UNKNOWN_NO_PAIRS
  | R013_DC_UNKNOWN_TIMEOUT
deriving DecidableEq

/-- DcResult (src/types/dc.rs). -/
structure DcResult where
  value : Option ℚ
  signals : DcSignals
  reason : DcReason
  pair_count : Nat
  speaker_count : Nat
deriving DecidableEq

namespace DcResult

/-- DcResult::success, including the reporting classification of the value. -/
def success (value : ℚ) (signals : DcSignals) (pair_count speaker_count : Nat) :
    DcResult :=
  let reason :=
    if value < DC_THRESHOLD_LOCKED then DcReason.R015_DC_LOW_COHERENT
    else if value < DC_THRESHOLD_APPROACHING then DcReason.R010_DC_COMPUTED
    else if value < DC_THRESHOLD_DRIFT then DcReason.R010_DC_COMPUTED
    else DcReason.R014_DC_HIGH_DRIFT
  { value := some value, signals, reason, pair_count, speaker_count }

/-- DcResult::unknown. -/
def unknown (reason : DcReason) : DcResult :=
  { value := none, signals := DcSignals.zero, reason,
    pair_count := 0, speaker_count := 0 }

/-- DcResult::is_known. -/
def is_known (r : DcResult) : Bool :=
  r.value.isSome

end DcResult

/-- Rust f64::clamp(0.0, 1.0) on the modelled rational. -/
def clamp01 (q : ℚ) : ℚ :=
  if q < 0 then 0 else if q > 1 then 1 else q

/-- DcParser::calculate (src/core/dc_parser.rs), with the five-signal text
heuristics (`calculate_signals`, an external collaborator per the spec's
scope) abstracted as the parameter `calc_signals`. -/
def calculate (calc_signals : List TurnPair → DcSignals)
    (window : ConversationWindow) : DcResult :=
  if window.turns.length < 2 then
    DcResult.unknown DcReason.R012_DC_UNKNOWN_INSUFFICIENT_TURNS
  else if window.speaker_count < 2 then
    DcResult.unknown DcReason.R011_DC_UNKNOWN_SINGLE_SPEAKER
  else
    let pairs := window.paired_turns
    if pairs.isEmpty then
      DcResult.unknown DcReason.R016_DC_UNKNOWN_NO_PAIRS
    else
      let signals := calc_signals pairs
      let dc_value := clamp01 signals.weighted_sum
      DcResult.success dc_value signals pairs.length window.speaker_count

/-- FacelockState (src/types/state.rs). -/
inductive FacelockState where
  | Waiting
  | Approaching
  | Locked
  | Drift
deriving DecidableEq

/-- ReasonCode (src/types/reason.rs). -/
inductive ReasonCode where
  | R001_ALIGNED
  | R001_NOT_ALIGNED
  | R002_STATE_WAITING
  | R002_STATE_APPROACHING
  | R002_STATE_LOCKED
  | R002_STATE_DRIFT
  | R003_STABILITY_ACCUMULATING
  | R003_STABILITY_RESET
  | R003_STABILITY_REACHED
  | R004_R_BELOW_LOCK
  | R004_R_BELOW_APPROACH
  | R004_R_ABOVE_DRIFT
  | R005_TRANSITION_TO_APPROACHING
  | R005_TRANSITION_TO_LOCKED
  | R005_TRANSITION_TO_DRIFT
  | R005_TRANSITION_RECOVERING
  | R005_STATE_MAINTAINED
deriving DecidableEq

/-- StateOutput (src/types/output.rs); the wall-clock `timestamp` display
field is ambient I/O and omitted. -/
structure StateOutput where
  r : ℚ
  state : FacelockState
  stable_ms : Nat
  reason : ReasonCode
  proof_available : Bool
deriving DecidableEq

/-- StateOutput::new: `proof_available` is derived from the state. -/
def StateOutput.new (r : ℚ) (state : FacelockState) (stable_ms : Nat)
    (reason : ReasonCode) : StateOutput :=
  { r, state, stable_ms, reason,
    proof_available := decide (state = FacelockState.Locked) }

/-- FacelockEngine (src/core/facelock.rs). -/
structure FacelockEngine where
  state : FacelockState
  state_since : Nat
  last_r : ℚ
  lock_candidate_since : Option Nat
  first_input : Option Nat
  last_input : Nat
  update_count : Nat
deriving DecidableEq

namespace FacelockEngine

/-- FacelockEngine::new at instant `now`. -/
def new (now : Nat) : FacelockEngine :=
  { state := FacelockState.Waiting, state_since := now, last_r := 1,
    lock_candidate_since := none, first_input := none, last_input := now,
    update_count := 0 }

/-- FacelockEngine::compute_transition. -/
def compute_transition (e : FacelockEngine) (r : ℚ) (stable_ms : Nat) :
    FacelockState × ReasonCode :=
  match e.state with
  | FacelockState.Waiting =>
    if r < R_THRESHOLD_APPROACHING then
      (FacelockState.Approaching, ReasonCode.R005_TRANSITION_TO_APPROACHING)
    else
      (FacelockState.Waiting, ReasonCode.R002_STATE_WAITING)
  | FacelockState.Approaching =>
    if r < R_THRESHOLD_LOCKED ∧ stable_ms ≥ STABILITY_DURATION_MS then
      (FacelockState.Locked, ReasonCode.R005_TRANSITION_TO_LOCKED)
    else if r ≥ R_THRESHOLD_DRIFT then
      (FacelockState.Drift, ReasonCode.R005_TRANSITION_TO_DRIFT)
    else if r < R_THRESHOLD_LOCKED then
      (FacelockState.Approaching, ReasonCode.R003_STABILITY_ACCUMULATING)
    else
      (FacelockState.Approaching, ReasonCode.R002_STATE_APPROACHING)
  | FacelockState.Locked =>
    if r ≥ R_THRESHOLD_LOCKED then
      (FacelockState.Drift, ReasonCode.R005_TRANSITION_TO_DRIFT)
    else
      (FacelockState.Locked, ReasonCode.R002_STATE_LOCKED)
  | FacelockState.Drift =>
    if r < R_THRESHOLD_APPROACHING then
      (FacelockState.Approaching, ReasonCode.R005_TRANSITION_RECOVERING)
    else
      (FacelockState.Drift, ReasonCode.R002_STATE_DRIFT)

/-- FacelockEngine::update at instant `now`; returns the mutated engine and
the StateOutput.  The terminal-bell side channel on the LOCKED transition is
I/O and has no data effect. -/
def update (e : FacelockEngine) (now : Nat) (r : ℚ) :
    FacelockEngine × StateOutput :=
  let first_input :=
    match e.first_input with
    | none => some now
    | some t => some t
  let lock_candidate_since :=
    if r < R_THRESHOLD_LOCKED then
      match e.lock_candidate_since with
      | none => some now
      | some s => some s
    else none
  let stable_ms :=
    match lock_candidate_since with
    | some s => now - s
    | none => 0
  let tr := e.compute_transition r stable_ms
  let new_state := tr.1
  let reason := tr.2
  let state_since := if new_state ≠ e.state then now else e.state_since
  ({ state := new_state, state_since, last_r := r, lock_candidate_since,
     first_input, last_input := now, update_count := e.update_count + 1 },
   StateOutput.new r new_state stable_ms reason)

/-- FacelockEngine::stable_ms query at instant `now`. -/
def stable_ms (e : FacelockEngine) (now : Nat) : Nat :=
  match e.lock_candidate_since with
  | some s => now - s
  | none => 0

end FacelockEngine

/-- ProofReason (src/types/proof.rs). -/
inductive ProofReason where
  | R200_PROOF_GENERATED
  | R201_PROOF_NOT_STABLE
  | R202_PROOF_DC_UNKNOWN
  | R203_PROOF_WINDOW_EMPTY
  | R204_PROOF_NOT_LOCKED
deriving DecidableEq

/-- Big-endian byte serialization of a `Nat` in `w` bytes, as Rust's
`to_be_bytes` on the corresponding fixed-width integer. -/
def toBeBytes : Nat → Nat → List Nat
  | 0, _ => []
  | w + 1, n => toBeBytes w (n / 256) ++ [n % 256]

/-- Big-endian byte deserialization, as Rust's `from_be_bytes`. -/
def fromBeBytes (bs : List Nat) : Nat :=
  bs.foldl (fun acc b => acc * 256 + b) 0

/-- ProofPayload (src/types/proof.rs).  `version` is the u16, `r_final` and
`dc_final` are the 64-bit IEEE bit patterns of the Rust f64 fields,
`window_start_unix` is the 64-bit two's-complement pattern of the i64. -/
structure ProofPayload where
  version : Nat
  session_id : List Nat
  r_final : Nat
  dc_final : Nat
  lock_duration_secs : Nat
  window_start_unix : Nat
  paired_turn_count : Nat
  conversation_hash : List Nat
  node_pubkey : List Nat
  payload_hash : List Nat
deriving DecidableEq

namespace ProofPayload

/-- ProofPayload::to_bytes: the 184-byte fixed layout, fields big-endian in
declaration order followed by the 34 zero padding bytes of the array. -/
def to_bytes (p : ProofPayload) : List Nat :=
  toBeBytes 2 p.version
    ++ p.session_id
    ++ toBeBytes 8 p.r_final
    ++ toBeBytes 8 p.dc_final
    ++ toBeBytes 8 p.lock_duration_secs
    ++ toBeBytes 8 p.window_start_unix
    ++ toBeBytes 4 p.paired_turn_count
    ++ p.conversation_hash
    ++ p.node_pubkey
    ++ p.payload_hash
    ++ List.replicate 34 0

/-- ProofPayload::from_bytes: read each field back at its fixed offset. -/
def from_bytes (bs : List Nat) : ProofPayload :=
  { version := fromBeBytes ((bs.drop 0).take 2)
    session_id := (bs.drop 2).take 16
    r_final := fromBeBytes ((bs.drop 18).take 8)
    dc_final := fromBeBytes ((bs.drop 26).take 8)
    lock_duration_secs := fromBeBytes ((bs.drop 34).take 8)
    window_start_unix := fromBeBytes ((bs.drop 42).take 8)
    paired_turn_count := fromBeBytes ((bs.drop 50).take 4)
    conversation_hash := (bs.drop 54).take 32
    node_pubkey := (bs.drop 86).take 32
    payload_hash := (bs.drop 118).take 32 }

end ProofPayload

/-- Proof (src/types/proof.rs): payload, signature and the in-memory
reserved field that is never transmitted. -/
structure Proof where
  payload : ProofPayload
  signature : List Nat
  reserved : List Nat
deriving DecidableEq

namespace Proof

/-- Proof::new. -/
def new (payload : ProofPayload) (signature : List Nat) : Proof :=
  { payload, signature, reserved := List.replicate 36 0 }

/-- Proof::to_bytes: exactly the 184 payload bytes then the 64 signature
bytes; the reserved field is not written. -/
def to_bytes (p : Proof) : List Nat :=
  p.payload.to_bytes ++ p.signature

/-- Proof::from_bytes. -/
def from_bytes (bs : List Nat) : Proof :=
  { payload := ProofPayload.from_bytes (bs.take 184)
    signature := (bs.drop 184).take 64
    reserved := List.replicate 36 0 }

end Proof

/-- Lowercase hex digit for a nibble, as Rust's `{:02x}` formatting. -/
def hexDigitChar (n : Nat) : Char :=
  if n < 10 then Char.ofNat (48 + n) else Char.ofNat (97 + (n - 10))

/-- Hex encoding of a byte list, two lowercase digits per byte. -/
def hexChars : List Nat → List Char
  | [] => []
  | b :: rest => hexDigitChar (b / 16) :: hexDigitChar (b % 16) :: hexChars rest

/-- Hex digit value, as accepted by `u8::from_str_radix(_, 16)`. -/
def hexVal (c : Char) : Option Nat :=
  if 48 ≤ c.toNat ∧ c.toNat ≤ 57 then some (c.toNat - 48)
  else if 97 ≤ c.toNat ∧ c.toNat ≤ 102 then some (c.toNat - 87)
  else if 65 ≤ c.toNat ∧ c.toNat ≤ 70 then some (c.toNat - 55)
  else none

/-- Parse the character stream two characters at a time, as the
`chunks(2)` / `from_str_radix` loop of Proof::from_hex; `from_str_radix`
also accepts a leading plus sign in a chunk. -/
def parseHexPairs : List Char → Option (List Nat)
  | [] => some []
  | [_] => none
  | c1 :: c2 :: rest => do
    let b ←
      if c1 = '+' then hexVal c2
      else do
        let h ← hexVal c1
        let l ← hexVal c2
        pure (16 * h + l)
    let bs ← parseHexPairs rest
    pure (b :: bs)

/-- Proof::to_hex. -/
def Proof.to_hex (p : Proof) : List Char :=
  hexChars p.to_bytes

/-- Proof::from_hex: reject any length other than 496, then parse. -/
def Proof.from_hex (s : List Char) : Option Proof :=
  if s.length ≠ 496 then none
  else
    match parseHexPairs s with
    | none => none
    | some bytes => some (Proof.from_bytes bytes)

/-- ProofResult (src/types/proof.rs). -/
structure ProofResult where
  proof : Option Proof
  reason : ProofReason
deriving DecidableEq

namespace ProofResult

/-- ProofResult::success. -/
def success (proof : Proof) : ProofResult :=
  { proof := some proof, reason := ProofReason.R200_PROOF_GENERATED }

/-- ProofResult::failure. -/
def failure (reason : ProofReason) : ProofResult :=
  { proof := none, reason }

/-- ProofResult::is_success. -/
def is_success (r : ProofResult) : Bool :=
  r.proof.isSome

end ProofResult

/-- Byte stream fed to the hasher by hash_paired_turns (src/core/proof.rs):
for each pair, the four fields first.speaker, first.text, second.speaker,
second.text, each followed by a single 0 separator byte. -/
def preHashBytes : List TurnPair → List Nat
  | [] => []
  | p :: rest =>
    p.first.speaker ++ 0 :: p.first.text ++ 0 ::
      p.second.speaker ++ 0 :: p.second.text ++ 0 :: preHashBytes rest

/-- hash_paired_turns (src/core/proof.rs), over an abstract SHA-256. -/
def hash_paired_turns (sha256 : List Nat → List Nat)
    (pairs : List TurnPair) : List Nat :=
  sha256 (preHashBytes pairs)

/-- Rust `as u64` cast of the modelled f64 duration: truncate toward zero,
saturating at the u64 range (negative values go to 0). -/
def ratAsU64 (q : ℚ) : Nat :=
  min q.floor.toNat (2 ^ 64 - 1)

/-- ProofGenerator::can_generate (src/core/proof.rs): the policy gate. -/
def can_generate (state : FacelockState) (locked_duration_secs : ℚ)
    (dc_result : DcResult) (window : ConversationWindow) :
    Except ProofReason Unit :=
  if state ≠ FacelockState.Locked then
    Except.error ProofReason.R204_PROOF_NOT_LOCKED
  else if locked_duration_secs < LOCKED_MIN_DURATION_SECS then
    Except.error ProofReason.R201_PROOF_NOT_STABLE
  else if dc_result.is_known = false then
    Except.error ProofReason.R202_PROOF_DC_UNKNOWN
  else if window.paired_turns.isEmpty then
    Except.error ProofReason.R203_PROOF_WINDOW_EMPTY
  else
    Except.ok ()

/-- ProofGenerator::generate (src/core/proof.rs).  `sha256`, `sign_fn`, the
IEEE encoding `f64bits` and the chrono wall clock `nowUnix` are the
injected/ambient collaborators. -/
def generate (node_pubkey session_id : List Nat) (state : FacelockState)
    (locked_duration_secs r_final : ℚ) (dc_result : DcResult)
    (window : ConversationWindow) (sign_fn sha256 : List Nat → List Nat)
    (f64bits : ℚ → Nat) (nowUnix : Nat) : ProofResult :=
  match can_generate state locked_duration_secs dc_result window with
  | Except.error reason => ProofResult.failure reason
  | Except.ok _ =>
    let pairs := window.paired_turns
    let dc_final := dc_result.value.getD 0
    let conversation_hash := hash_paired_turns sha256 pairs
    let window_start_unix :=
      match pairs.head? with
      | some p =>
        match p.first.timestamp with
        | some _ => nowUnix
        | none => 0
      | none => 0
    let payload0 : ProofPayload :=
      { version := 1, session_id, r_final := f64bits r_final,
        dc_final := f64bits dc_final,
        lock_duration_secs := ratAsU64 locked_duration_secs,
        window_start_unix, paired_turn_count := pairs.length % 2 ^ 32,
        conversation_hash, node_pubkey,
        payload_hash := List.replicate 32 0 }
    let payload_hash := sha256 (payload0.to_bytes.take 118)
    let payload := { payload0 with payload_hash }
    let signature := sign_fn payload.to_bytes
    ProofResult.success (Proof.new payload signature)

/-- verify_proof (src/core/proof.rs): signature check over the complete
payload bytes, then the self-hash check over the first 118 bytes. -/
def verify_proof (verify_fn : List Nat → List Nat → List Nat → Bool)
    (sha256 : List Nat → List Nat) (proof : Proof) : Bool :=
  let payload_bytes := proof.payload.to_bytes
  if verify_fn payload_bytes proof.signature proof.payload.node_pubkey = false then
    false
  else if sha256 (payload_bytes.take 118) ≠ proof.payload.payload_hash then
    false
  else
    true

/-- Byte-range well-formedness of a byte list: every entry fits in a u8. -/
def bytesWF (l : List Nat) : Bool :=
  l.all (fun b => decide (b < 256))

/-- Well-formedness of a payload, mirroring the Rust field types
(u16 / [u8; 16] / f64 bit patterns / u64 / i64 pattern / u32 / [u8; 32]). -/
def ProofPayload.wf (p : ProofPayload) : Prop :=
  p.version < 2 ^ 16 ∧
  p.session_id.length = 16 ∧ bytesWF p.session_id = true ∧
  p.r_final < 2 ^ 64 ∧ p.dc_final < 2 ^ 64 ∧
  p.lock_duration_secs < 2 ^ 64 ∧ p.window_start_unix < 2 ^ 64 ∧
  p.paired_turn_count < 2 ^ 32 ∧
  p.conversation_hash.length = 32 ∧ bytesWF p.conversation_hash = true ∧
  p.node_pubkey.length = 32 ∧ bytesWF p.node_pubkey = true ∧
  p.payload_hash.length = 32 ∧ bytesWF p.payload_hash = true

/-- Well-formedness of a proof: well-formed payload and 64 signature bytes. -/
def Proof.wf (p : Proof) : Prop :=
  p.payload.wf ∧ p.signature.length = 64 ∧ bytesWF p.signature = true

/-- Lowercase-hex-digit test for the canonical string encoding. -/
def isLowerHexDigit (c : Char) : Bool :=
  decide ((48 ≤ c.toNat ∧ c.toNat ≤ 57) ∨ (97 ≤ c.toNat ∧ c.toNat ≤ 102))

theorem bytesWF_iff {l : List Nat} : bytesWF l = true ↔ ∀ b ∈ l, b < 256 := by
  simp [bytesWF]

theorem toBeBytes_length (w n : Nat) : (toBeBytes w n).length = w := by
  induction w generalizing n with
  | zero => rfl
  | succ w ih => simp [toBeBytes, ih]

theorem toBeBytes_lt {w n : Nat} : ∀ b ∈ toBeBytes w n, b < 256 := by
  induction w generalizing n with
  | zero => intro b hb; simp [toBeBytes] at hb
  | succ w ih =>
    intro b hb
    simp only [toBeBytes, List.mem_append, List.mem_singleton] at hb
    rcases hb with hb | hb
    · exact ih b hb
    · subst hb; exact Nat.mod_lt _ (by norm_num)

theorem fromBeBytes_toBeBytes (w n : Nat) :
    fromBeBytes (toBeBytes w n) = n % 256 ^ w := by
  induction w generalizing n with
  | zero => simp [toBeBytes, fromBeBytes, Nat.mod_one]
  | succ w ih =>
    have key : n % 256 ^ (w + 1) = n % 256 + 256 * (n / 256 % 256 ^ w) := by
      rw [pow_succ, mul_comm, Nat.mod_mul]
    simp only [toBeBytes, fromBeBytes, List.foldl_append, List.foldl_cons,
      List.foldl_nil]
    have ih8 := ih (n / 256)
    simp only [fromBeBytes] at ih8
    rw [ih8, key]
    ring

theorem fromBeBytes_toBeBytes_of_lt {w n : Nat} (h : n < 256 ^ w) :
    fromBeBytes (toBeBytes w n) = n := by
  rw [fromBeBytes_toBeBytes, Nat.mod_eq_of_lt h]

theorem ProofPayload.to_bytes_length (p : ProofPayload) (h : p.wf) :
    p.to_bytes.length = 184 := by
  obtain ⟨_, hsl, _, _, _, _, _, _, hchl, _, hnl, _, hhl, _⟩ := h
  simp [ProofPayload.to_bytes, toBeBytes_length, hsl, hchl, hhl, hnl]

theorem ProofPayload.to_bytes_bytesWF (p : ProofPayload) (h : p.wf) :
    bytesWF p.to_bytes = true := by
  obtain ⟨_, _, hsb, _, _, _, _, _, _, hchb, _, hnb, _, hhb⟩ := h
  rw [bytesWF_iff]
  intro b hb
  simp only [ProofPayload.to_bytes, List.mem_append] at hb
  rcases hb with
    (((((((((hb | hb) | hb) | hb) | hb) | hb) | hb) | hb) | hb) | hb) | hb
  · exact toBeBytes_lt b hb
  · exact bytesWF_iff.mp hsb b hb
  · exact toBeBytes_lt b hb
  · exact toBeBytes_lt b hb
  · exact toBeBytes_lt b hb
  · exact toBeBytes_lt b hb
  · exact toBeBytes_lt b hb
  · exact bytesWF_iff.mp hchb b hb
  · exact bytesWF_iff.mp hnb b hb
  · exact bytesWF_iff.mp hhb b hb
  · have := List.eq_of_mem_replicate hb
    omega

/-- Deserializing the serialized payload restores every field. -/
theorem ProofPayload.from_to (p : ProofPayload) (h : p.wf) :
    ProofPayload.from_bytes p.to_bytes = p := by
  obtain ⟨v, sid, rf, df, ld, ws, pc, ch, npk, ph⟩ := p
  obtain ⟨hv, hsl, _, hrf, hdf, hld, hws, hpc, hchl, _, hnl, _, hhl, _⟩ := h
  simp only at hv hsl hrf hdf hld hws hpc hchl hnl hhl
  have base : ProofPayload.to_bytes ⟨v, sid, rf, df, ld, ws, pc, ch, npk, ph⟩ =
      toBeBytes 2 v ++ (sid ++ (toBeBytes 8 rf ++ (toBeBytes 8 df ++
        (toBeBytes 8 ld ++ (toBeBytes 8 ws ++ (toBeBytes 4 pc ++
          (ch ++ (npk ++ (ph ++ List.replicate 34 0))))))))) := by
    simp [ProofPayload.to_bytes]
  set bs := ProofPayload.to_bytes ⟨v, sid, rf, df, ld, ws, pc, ch, npk, ph⟩
    with hbs
  have d2 : bs.drop 2 = sid ++ (toBeBytes 8 rf ++ (toBeBytes 8 df ++
      (toBeBytes 8 ld ++ (toBeBytes 8 ws ++ (toBeBytes 4 pc ++
        (ch ++ (npk ++ (ph ++ List.replicate 34 0)))))))) := by
    rw [base]; exact List.drop_left' (toBeBytes_length 2 v)
  have d18 : bs.drop 18 = toBeBytes 8 rf ++ (toBeBytes 8 df ++
      (toBeBytes 8 ld ++ (toBeBytes 8 ws ++ (toBeBytes 4 pc ++
        (ch ++ (npk ++ (ph ++ List.replicate 34 0))))))) := by
    rw [show (18 : Nat) = 2 + 16 by norm_num, ← List.drop_drop, d2]
    exact List.drop_left' hsl
  have d26 : bs.drop 26 = toBeBytes 8 df ++ (toBeBytes 8 ld ++
      (toBeBytes 8 ws ++ (toBeBytes 4 pc ++
        (ch ++ (npk ++ (ph ++ List.replicate 34 0)))))) := by
    rw [show (26 : Nat) = 18 + 8 by norm_num, ← List.drop_drop, d18]
    exact List.drop_left' (toBeBytes_length 8 rf)
  have d34 : bs.drop 34 = toBeBytes 8 ld ++ (toBeBytes 8 ws ++
      (toBeBytes 4 pc ++ (ch ++ (npk ++ (ph ++ List.replicate 34 0))))) := by
    rw [show (34 : Nat) = 26 + 8 by norm_num, ← List.drop_drop, d26]
    exact List.drop_left' (toBeBytes_length 8 df)
  have d42 : bs.drop 42 = toBeBytes 8 ws ++ (toBeBytes 4 pc ++
      (ch ++ (npk ++ (ph ++ List.replicate 34 0)))) := by
    rw [show (42 : Nat) = 34 + 8 by norm_num, ← List.drop_drop, d34]
    exact List.drop_left' (toBeBytes_length 8 ld)
  have d50 : bs.drop 50 = toBeBytes 4 pc ++
      (ch ++ (npk ++ (ph ++ List.replicate 34 0))) := by
    rw [show (50 : Nat) = 42 + 8 by norm_num, ← List.drop_drop, d42]
    exact List.drop_left' (toBeBytes_length 8 ws)
  have d54 : bs.drop 54 = ch ++ (npk ++ (ph ++ List.replicate 34 0)) := by
    rw [show (54 : Nat) = 50 + 4 by norm_num, ← List.drop_drop, d50]
    exact List.drop_left' (toBeBytes_length 4 pc)
  have d86 : bs.drop 86 = npk ++ (ph ++ List.replicate 34 0) := by
    rw [show (86 : Nat) = 54 + 32 by norm_num, ← List.drop_drop, d54]
    exact List.drop_left' hchl
  have d118 : bs.drop 118 = ph ++ List.replicate 34 0 := by
    rw [show (118 : Nat) = 86 + 32 by norm_num, ← List.drop_drop, d86]
    exact List.drop_left' hnl
  simp only [ProofPayload.from_bytes, List.drop_zero, ProofPayload.mk.injEq,
    ← hbs]
  refine ⟨?_, ?_, ?_, ?_, ?_, ?_, ?_, ?_, ?_, ?_⟩
  · rw [base, List.take_left' (toBeBytes_length 2 v)]
    exact fromBeBytes_toBeBytes_of_lt (by norm_num at hv ⊢; omega)
  · rw [d2, List.take_left' hsl]
  · rw [d18, List.take_left' (toBeBytes_length 8 rf)]
    exact fromBeBytes_toBeBytes_of_lt (by norm_num at hrf ⊢; omega)
  · rw [d26, List.take_left' (toBeBytes_length 8 df)]
    exact fromBeBytes_toBeBytes_of_lt (by norm_num at hdf ⊢; omega)
  · rw [d34, List.take_left' (toBeBytes_length 8 ld)]
    exact fromBeBytes_toBeBytes_of_lt (by norm_num at hld ⊢; omega)
  · rw [d42, List.take_left' (toBeBytes_length 8 ws)]
    exact fromBeBytes_toBeBytes_of_lt (by norm_num at hws ⊢; omega)
  · rw [d50, List.take_left' (toBeBytes_length 4 pc)]
    exact fromBeBytes_toBeBytes_of_lt (by norm_num at hpc ⊢; omega)
  · rw [d54, List.take_left' hchl]
  · rw [d86, List.take_left' hnl]
  · rw [d118, List.take_left' hhl]

theorem Proof.proof_bytes_length (p : Proof) (h : p.wf) :
    p.to_bytes.length = 248 := by
  obtain ⟨hp, hsig, _⟩ := h
  simp [Proof.to_bytes, ProofPayload.to_bytes_length _ hp, hsig]

theorem Proof.proof_bytes_wf (p : Proof) (h : p.wf) :
    bytesWF p.to_bytes = true := by
  obtain ⟨hp, _, hsb⟩ := h
  rw [bytesWF_iff]
  intro b hb
  simp only [Proof.to_bytes, List.mem_append] at hb
  rcases hb with hb | hb
  · exact bytesWF_iff.mp (ProofPayload.to_bytes_bytesWF _ hp) b hb
  · exact bytesWF_iff.mp hsb b hb

theorem hexVal_hexDigitChar {n : Nat} (h : n < 16) :
    hexVal (hexDigitChar n) = some n := by
  interval_cases n <;> rfl

theorem hexDigitChar_ne_plus {n : Nat} (h : n < 16) : hexDigitChar n ≠ '+' := by
  interval_cases n <;> decide

theorem isLowerHexDigit_hexDigitChar {n : Nat} (h : n < 16) :
    isLowerHexDigit (hexDigitChar n) = true := by
  interval_cases n <;> decide

theorem hexChars_length (bs : List Nat) : (hexChars bs).length = 2 * bs.length := by
  induction bs with
  | nil => rfl
  | cons b rest ih => simp [hexChars, ih]; ring

theorem hexChars_lower {bs : List Nat} (h : bytesWF bs = true) :
    ∀ c ∈ hexChars bs, isLowerHexDigit c = true := by
  induction bs with
  | nil => intro c hc; simp [hexChars] at hc
  | cons b rest ih =>
    intro c hc
    have hb : b < 256 := bytesWF_iff.mp h b (by simp)
    have hrest : bytesWF rest = true := by
      rw [bytesWF_iff]
      intro x hx
      exact bytesWF_iff.mp h x (by simp [hx])
    simp only [hexChars, List.mem_cons] at hc
    rcases hc with hc | hc | hc
    · subst hc; exact isLowerHexDigit_hexDigitChar (by omega)
    · subst hc; exact isLowerHexDigit_hexDigitChar (by omega)
    · exact ih hrest c hc

theorem parseHexPairs_hexChars {bs : List Nat} (h : bytesWF bs = true) :
    parseHexPairs (hexChars bs) = some bs := by
  induction bs with
  | nil => rfl
  | cons b rest ih =>
    have hb : b < 256 := bytesWF_iff.mp h b (by simp)
    have hrest : bytesWF rest = true := by
      rw [bytesWF_iff]
      intro x hx
      exact bytesWF_iff.mp h x (by simp [hx])
    have h1 : b / 16 < 16 := by omega
    have h2 : b % 16 < 16 := by omega
    simp only [hexChars, parseHexPairs]
    rw [if_neg (hexDigitChar_ne_plus h1)]
    simp [hexVal_hexDigitChar h1, hexVal_hexDigitChar h2, ih hrest]
    omega

/-- Deserializing a serialized proof restores the payload and signature. -/
theorem Proof.proof_from_to (p : Proof) (h : p.wf) :
    (Proof.from_bytes p.to_bytes).payload = p.payload ∧
      (Proof.from_bytes p.to_bytes).signature = p.signature := by
  obtain ⟨hp, hsl, _⟩ := h
  constructor
  · show ProofPayload.from_bytes (p.to_bytes.take 184) = p.payload
    rw [Proof.to_bytes, List.take_left' (ProofPayload.to_bytes_length _ hp)]
    exact ProofPayload.from_to _ hp
  · show (p.to_bytes.drop 184).take 64 = p.signature
    rw [Proof.to_bytes, List.drop_left' (ProofPayload.to_bytes_length _ hp),
      ← hsl, List.take_length]

/-- Decoding the canonical hex string yields the binary decoding. -/
theorem Proof.from_hex_to_hex (p : Proof) (h : p.wf) :
    Proof.from_hex p.to_hex = some (Proof.from_bytes p.to_bytes) := by
  unfold Proof.from_hex Proof.to_hex
  rw [hexChars_length, Proof.proof_bytes_length p h,
    parseHexPairs_hexChars (Proof.proof_bytes_wf p h)]
  norm_num

/-- Observable (speaker, text) content of a pair: exactly the fields the
content hash consumes. -/
def pairContent (p : TurnPair) : (List Nat × List Nat) × (List Nat × List Nat) :=
  ((p.first.speaker, p.first.text), (p.second.speaker, p.second.text))

/-- Predicate: none of the four hashed fields of a pair contains the 0x00
separator byte. -/
def pairNulFree (p : TurnPair) : Prop :=
  0 ∉ p.first.speaker ∧ 0 ∉ p.first.text ∧
    0 ∉ p.second.speaker ∧ 0 ∉ p.second.text

theorem sep_inj : ∀ (f g rest1 rest2 : List Nat), 0 ∉ f → 0 ∉ g →
    f ++ 0 :: rest1 = g ++ 0 :: rest2 → f = g ∧ rest1 = rest2 := by
  intro f
  induction f with
  | nil =>
    intro g r1 r2 _ hg h
    cases g with
    | nil =>
      simp only [List.nil_append, List.cons.injEq] at h
      exact ⟨rfl, h.2⟩
    | cons b bs =>
      simp only [List.nil_append, List.cons_append, List.cons.injEq] at h
      exact absurd (h.1 ▸ List.mem_cons_self b bs) hg
  | cons a as ih =>
    intro g r1 r2 hf hg h
    cases g with
    | nil =>
      simp only [List.cons_append, List.nil_append, List.cons.injEq] at h
      exact absurd (h.1 ▸ List.mem_cons_self a as) hf
    | cons b bs =>
      simp only [List.cons_append, List.cons.injEq] at h
      obtain ⟨h1, h2⟩ := h
      have hf2 : 0 ∉ as := fun hx => hf (List.mem_cons_of_mem _ hx)
      have hg2 : 0 ∉ bs := fun hx => hg (List.mem_cons_of_mem _ hx)
      obtain ⟨e1, e2⟩ := ih bs r1 r2 hf2 hg2 h2
      exact ⟨by rw [h1, e1], e2⟩

theorem preHashBytes_congr : ∀ ps qs : List TurnPair,
    ps.map pairContent = qs.map pairContent →
    preHashBytes ps = preHashBytes qs := by
  intro ps
  induction ps with
  | nil =>
    intro qs h
    cases qs with
    | nil => rfl
    | cons q qs2 => simp at h
  | cons p ps2 ih =>
    intro qs h
    cases qs with
    | nil => simp at h
    | cons q qs2 =>
      simp only [List.map_cons, List.cons.injEq] at h
      obtain ⟨h1, h2⟩ := h
      simp only [pairContent, Prod.mk.injEq] at h1
      obtain ⟨⟨e1, e2⟩, e3, e4⟩ := h1
      simp [preHashBytes, e1, e2, e3, e4, ih qs2 h2]

theorem preHashBytes_inj : ∀ ps qs : List TurnPair,
    (∀ p ∈ ps, pairNulFree p) → (∀ q ∈ qs, pairNulFree q) →
    preHashBytes ps = preHashBytes qs →
    ps.map pairContent = qs.map pairContent := by
  intro ps
  induction ps with
  | nil =>
    intro qs _ hq h
    cases qs with
    | nil => rfl
    | cons q qs2 =>
      exfalso
      simp only [preHashBytes] at h
      exact absurd h.symm (by simp)
  | cons p ps2 ih =>
    intro qs hp hq h
    cases qs with
    | nil =>
      exfalso
      simp only [preHashBytes] at h
      exact absurd h (by simp)
    | cons q qs2 =>
      obtain ⟨hp1, hp2, hp3, hp4⟩ := hp p (List.mem_cons_self p ps2)
      obtain ⟨hq1, hq2, hq3, hq4⟩ := hq q (List.mem_cons_self q qs2)
      simp only [preHashBytes, List.append_assoc, List.cons_append] at h
      obtain ⟨e1, h⟩ := sep_inj _ _ _ _ hp1 hq1 h
      obtain ⟨e2, h⟩ := sep_inj _ _ _ _ hp2 hq2 h
      obtain ⟨e3, h⟩ := sep_inj _ _ _ _ hp3 hq3 h
      obtain ⟨e4, h⟩ := sep_inj _ _ _ _ hp4 hq4 h
      have hps : ∀ x ∈ ps2, pairNulFree x :=
        fun x hx => hp x (List.mem_cons_of_mem _ hx)
      have hqs : ∀ x ∈ qs2, pairNulFree x :=
        fun x hx => hq x (List.mem_cons_of_mem _ hx)
      simp [pairContent, e1, e2, e3, e4, ih qs2 hps hqs h]

namespace ConversationWindow

theorem pruneAge_suffix (now dur : Nat) :
    ∀ ts : List Turn, (pruneAge now dur ts) <:+ ts := by
  intro ts
  induction ts with
  | nil => exact List.suffix_refl []
  | cons t rest ih =>
    simp only [pruneAge]
    match t.timestamp with
    | some ts0 =>
      by_cases hexp : now - ts0 > dur
      · simp only [if_pos hexp]
        exact ih.trans (List.suffix_cons t rest)
      · simp only [if_neg hexp]
        exact List.suffix_refl _
    | none => exact List.suffix_refl _

theorem pruneAge_age (now dur : Nat) :
    ∀ ts : List Turn, (∀ u ∈ ts, u.timestamp.isSome = true) →
    List.Sorted (· ≤ ·) (ts.map (fun u => u.timestamp.getD 0)) →
    ∀ u ∈ pruneAge now dur ts, now - u.timestamp.getD 0 ≤ dur := by
  intro ts
  induction ts with
  | nil => intro _ _ u hu; simp [pruneAge] at hu
  | cons t rest ih =>
    intro hsome hsort u hu
    obtain ⟨ts0, hts0⟩ : ∃ v, t.timestamp = some v := by
      cases hv : t.timestamp with
      | none => exact absurd (hv ▸ hsome t (List.mem_cons_self t rest)) (by simp)
      | some v => exact ⟨v, rfl⟩
    simp only [pruneAge, hts0] at hu
    have hs2 : (∀ a ∈ rest, t.timestamp.getD 0 ≤ a.timestamp.getD 0) ∧
        List.Sorted (· ≤ ·) (rest.map (fun u => u.timestamp.getD 0)) := by
      simpa using hsort
    by_cases hexp : now - ts0 > dur
    · rw [if_pos hexp] at hu
      exact ih (fun x hx => hsome x (List.mem_cons_of_mem _ hx)) hs2.2 u hu
    · rw [if_neg hexp] at hu
      rcases List.mem_cons.mp hu with rfl | hu2
      · simp [hts0]; omega
      · have hle : t.timestamp.getD 0 ≤ u.timestamp.getD 0 := hs2.1 u hu2
        rw [hts0] at hle
        simp only [Option.getD_some] at hle
        omega

theorem capFilter_sublist (cap : Nat) :
    ∀ ts : List Turn, (capFilter cap ts).Sublist ts := by
  intro ts
  induction ts with
  | nil => exact List.nil_sublist []
  | cons t rest ih =>
    simp only [capFilter]
    by_cases hc : rest.countP (fun u => decide (u.speaker = t.speaker)) + 1 ≤ cap
    · simp only [if_pos hc]
      exact ih.cons₂ t
    · simp only [if_neg hc]
      exact ih.cons t

theorem capFilter_filter (cap : Nat) (s : List Nat) :
    ∀ ts : List Turn,
    (capFilter cap ts).filter (fun u => decide (u.speaker = s)) =
      (ts.filter (fun u => decide (u.speaker = s))).drop
        ((ts.filter (fun u => decide (u.speaker = s))).length - cap) := by
  intro ts
  induction ts with
  | nil => simp [capFilter]
  | cons t rest ih =>
    simp only [capFilter]
    by_cases hts : t.speaker = s
    · subst hts
      have hcount : rest.countP (fun u => decide (u.speaker = t.speaker)) =
          (rest.filter (fun u => decide (u.speaker = t.speaker))).length :=
        List.countP_eq_length_filter _ _
      by_cases hc :
          rest.countP (fun u => decide (u.speaker = t.speaker)) + 1 ≤ cap
      · rw [if_pos hc]
        rw [List.filter_cons, if_pos (by simp), ih, List.filter_cons,
          if_pos (by simp)]
        rw [hcount] at hc
        rw [Nat.sub_eq_zero_of_le (by omega), List.drop_zero,
          Nat.sub_eq_zero_of_le (by simp; omega), List.drop_zero]
      · rw [if_neg hc]
        rw [ih, List.filter_cons, if_pos (by simp)]
        rw [hcount] at hc
        have hlen : ((t :: rest.filter
            (fun u => decide (u.speaker = t.speaker))).length) =
            (rest.filter (fun u => decide (u.speaker = t.speaker))).length
              + 1 := by simp
        rw [show (t :: rest.filter (fun u => decide (u.speaker = t.speaker))).length - cap =
            ((rest.filter (fun u => decide (u.speaker = t.speaker))).length - cap) + 1 by
          simp; omega]
        rw [List.drop_succ_cons]
    · have hft : (t :: rest).filter (fun u => decide (u.speaker = s)) =
          rest.filter (fun u => decide (u.speaker = s)) := by
        rw [List.filter_cons, if_neg (by simpa using hts)]
      by_cases hc : rest.countP (fun u => decide (u.speaker = t.speaker)) + 1 ≤ cap
      · rw [if_pos hc, List.filter_cons, if_neg (by simpa using hts), ih, hft]
      · rw [if_neg hc, ih, hft]

theorem capFilter_count (cap : Nat) (s : List Nat) (ts : List Turn) :
    (capFilter cap ts).countP (fun u => decide (u.speaker = s)) ≤ cap := by
  rw [List.countP_eq_length_filter, capFilter_filter, List.length_drop]
  omega

theorem countP_le_cons (p : Turn → Bool) (t : Turn) (rest : List Turn) :
    rest.countP p ≤ (t :: rest).countP p := by
  rw [List.countP_cons]
  exact Nat.le_add_right _ _

theorem removeMarked_sublist : ∀ (idxs : List Nat) (ts : List Turn),
    (removeMarked ts idxs).Sublist ts := by
  intro idxs
  induction idxs with
  | nil => intro ts; exact List.Sublist.refl ts
  | cons i rest ih =>
    intro ts
    have h1 : removeMarked ts (i :: rest) = removeMarked (ts.eraseIdx i) rest :=
      rfl
    rw [h1]
    exact (ih (ts.eraseIdx i)).trans (List.eraseIdx_sublist ts i)

theorem pruneSpeakerCap_sublist (cap : Nat) (ts : List Turn) :
    (pruneSpeakerCap cap ts).Sublist ts :=
  removeMarked_sublist (markedIndices cap ts) ts

theorem markedIndices_ne_nil (cap : Nat) : ∀ ts : List Turn,
    markedIndices cap ts ≠ [] →
    ∃ s, cap < ts.countP (fun u => decide (u.speaker = s)) := by
  intro ts
  induction ts with
  | nil => intro h; simp [markedIndices] at h
  | cons t rest ih =>
    intro h
    simp only [markedIndices] at h
    by_cases hc : rest.countP (fun u => decide (u.speaker = t.speaker)) + 1 > cap
    · refine ⟨t.speaker, ?_⟩
      rw [List.countP_cons]
      simp
      omega
    · rw [if_neg hc] at h
      have hne : markedIndices cap rest ≠ [] := by
        intro h0
        rw [h0] at h
        simp at h
      obtain ⟨s, hs⟩ := ih hne
      exact ⟨s, lt_of_lt_of_le hs (countP_le_cons _ t rest)⟩

theorem marked_le_one (cap : Nat) : ∀ ts : List Turn,
    (∀ s, ts.countP (fun u => decide (u.speaker = s)) ≤ cap + 1) →
    (∀ s1 s2, cap < ts.countP (fun u => decide (u.speaker = s1)) →
      cap < ts.countP (fun u => decide (u.speaker = s2)) → s1 = s2) →
    (markedIndices cap ts).length ≤ 1 := by
  intro ts
  induction ts with
  | nil => intro _ _; simp [markedIndices]
  | cons t rest ih =>
    intro hbound hone
    have hbR : ∀ s, rest.countP (fun u => decide (u.speaker = s)) ≤ cap + 1 :=
      fun s => le_trans (countP_le_cons _ t rest) (hbound s)
    have hoR : ∀ s1 s2,
        cap < rest.countP (fun u => decide (u.speaker = s1)) →
        cap < rest.countP (fun u => decide (u.speaker = s2)) → s1 = s2 :=
      fun s1 s2 h1 h2 =>
        hone s1 s2 (lt_of_lt_of_le h1 (countP_le_cons _ t rest))
          (lt_of_lt_of_le h2 (countP_le_cons _ t rest))
    simp only [markedIndices]
    by_cases hc : rest.countP (fun u => decide (u.speaker = t.speaker)) + 1 > cap
    · rw [if_pos hc]
      rcases hMr : markedIndices cap rest with _ | ⟨k, M⟩
      · simp
      · exfalso
        have hne : markedIndices cap rest ≠ [] := by rw [hMr]; simp
        obtain ⟨s, hs⟩ := markedIndices_ne_nil cap rest hne
        have hts : cap < (t :: rest).countP (fun u => decide (u.speaker = s)) :=
          lt_of_lt_of_le hs (countP_le_cons _ t rest)
        have htt : cap <
            (t :: rest).countP (fun u => decide (u.speaker = t.speaker)) := by
          rw [List.countP_cons]
          simp
          omega
        have heq := hone s t.speaker hts htt
        rw [heq] at hs
        have hb := hbound t.speaker
        have hcc : (t :: rest).countP (fun u => decide (u.speaker = t.speaker)) =
            rest.countP (fun u => decide (u.speaker = t.speaker)) + 1 := by
          rw [List.countP_cons]
          simp
        omega
    · rw [if_neg hc]
      simp only [List.length_map]
      exact ih hbR hoR

theorem capFilter_of_no_marks (cap : Nat) : ∀ ts : List Turn,
    markedIndices cap ts = [] → capFilter cap ts = ts := by
  intro ts
  induction ts with
  | nil => intro _; rfl
  | cons t rest ih =>
    intro h
    simp only [markedIndices] at h
    by_cases hc : rest.countP (fun u => decide (u.speaker = t.speaker)) + 1 > cap
    · rw [if_pos hc] at h
      simp at h
    · rw [if_neg hc] at h
      have hMr : markedIndices cap rest = [] := by
        simpa using h
      simp only [capFilter]
      rw [if_pos (by omega), ih hMr]

theorem capFilter_of_single_mark (cap : Nat) : ∀ (ts : List Turn) (i : Nat),
    markedIndices cap ts = [i] → capFilter cap ts = ts.eraseIdx i := by
  intro ts
  induction ts with
  | nil => intro i h; simp [markedIndices] at h
  | cons t rest ih =>
    intro i h
    simp only [markedIndices] at h
    by_cases hc : rest.countP (fun u => decide (u.speaker = t.speaker)) + 1 > cap
    · rw [if_pos hc] at h
      simp only [List.cons.injEq] at h
      obtain ⟨h1, h2⟩ := h
      have hMr : markedIndices cap rest = [] := by
        simpa using h2
      rw [← h1]
      simp only [capFilter]
      rw [if_neg (by omega), List.eraseIdx_cons_zero]
      exact capFilter_of_no_marks cap rest hMr
    · rw [if_neg hc] at h
      rcases hM : markedIndices cap rest with _ | ⟨k, M2⟩
      · rw [hM] at h
        simp at h
      · rw [hM] at h
        rcases M2 with _ | ⟨k2, M3⟩
        · simp only [List.map_cons, List.map_nil, List.cons.injEq,
            and_true] at h
          simp only [capFilter]
          rw [if_pos (by omega), ← h, List.eraseIdx_cons_succ, ih k hM]
        · simp at h

theorem pruneSpeakerCap_eq_capFilter (cap : Nat) (ts : List Turn)
    (hbound : ∀ s, ts.countP (fun u => decide (u.speaker = s)) ≤ cap + 1)
    (hone : ∀ s1 s2, cap < ts.countP (fun u => decide (u.speaker = s1)) →
      cap < ts.countP (fun u => decide (u.speaker = s2)) → s1 = s2) :
    pruneSpeakerCap cap ts = capFilter cap ts := by
  have hlen := marked_le_one cap ts hbound hone
  rcases hM : markedIndices cap ts with _ | ⟨i, _ | ⟨j, M⟩⟩
  · show removeMarked ts (markedIndices cap ts) = _
    rw [hM]
    exact (capFilter_of_no_marks cap ts hM).symm
  · show removeMarked ts (markedIndices cap ts) = _
    rw [hM]
    show ts.eraseIdx i = _
    exact (capFilter_of_single_mark cap ts i hM).symm
  · rw [hM] at hlen
    simp at hlen

theorem adjPairs_zip_spec : ∀ ts : List Turn,
    adjPairs ts = (ts.zip ts.tail).filterMap
      (fun ab => if ab.1.speaker ≠ ab.2.speaker
        then some { first := ab.1, second := ab.2 } else none)
  | [] => rfl
  | [_] => rfl
  | a :: b :: rest => by
    have ih := adjPairs_zip_spec (b :: rest)
    simp only [adjPairs, List.tail_cons, List.zip_cons_cons, List.filterMap_cons]
    by_cases h : a.speaker = b.speaker
    · simp only [h, ne_eq, not_true_eq_false, if_neg, ite_false]
      rw [ih]
      simp
    · simp only [ne_eq, h, not_false_eq_true, if_pos, ite_true]
      rw [ih]
      simp

theorem adjPairs_chain_same : ∀ ts : List Turn,
    List.Chain' (fun a b : Turn => a.speaker = b.speaker) ts → adjPairs ts = []
  | [] => fun _ => rfl
  | [_] => fun _ => rfl
  | a :: b :: rest => fun h => by
    obtain ⟨h1, h2⟩ := List.chain'_cons.mp h
    simp only [adjPairs, h1, ne_eq, not_true_eq_false, if_neg, ite_false]
    exact adjPairs_chain_same (b :: rest) h2

end ConversationWindow

/-- Helper: the first 118 serialized bytes of a well-sized payload are
exactly the fields preceding the self-hash, independent of the self-hash. -/
theorem ProofPayload.take118 (q : ProofPayload) (h1 : q.session_id.length = 16)
    (h2 : q.conversation_hash.length = 32) (h3 : q.node_pubkey.length = 32) :
    q.to_bytes.take 118 =
      toBeBytes 2 q.version ++ q.session_id ++ toBeBytes 8 q.r_final
        ++ toBeBytes 8 q.dc_final ++ toBeBytes 8 q.lock_duration_secs
        ++ toBeBytes 8 q.window_start_unix ++ toBeBytes 4 q.paired_turn_count
        ++ q.conversation_hash ++ q.node_pubkey := by
  have e : q.to_bytes =
      (toBeBytes 2 q.version ++ q.session_id ++ toBeBytes 8 q.r_final
        ++ toBeBytes 8 q.dc_final ++ toBeBytes 8 q.lock_duration_secs
        ++ toBeBytes 8 q.window_start_unix ++ toBeBytes 4 q.paired_turn_count
        ++ q.conversation_hash ++ q.node_pubkey)
      ++ (q.payload_hash ++ List.replicate 34 0) := by
    simp [ProofPayload.to_bytes]
  rw [e, List.take_left' (by simp [toBeBytes_length, h1, h2, h3])]

/-- Sample DcResult with a known value, as built by DcResult::success. -/
def dcKnownC : DcResult := DcResult.success 0.05 DcSignals.zero 2 2

/-- Sample turn by speaker A. -/
def turnA : Turn := { speaker := [65], text := [72], timestamp := some 0, r := 0 }

/-- Sample turn by speaker B. -/
def turnB : Turn := { speaker := [66], text := [73], timestamp := some 1, r := 0 }

/-- Sample two-speaker window containing one derivable pair. -/
def windowAB : ConversationWindow :=
  { turns := [turnA, turnB], window_duration := 30 }

/-- Sample well-formed payload. -/
def payloadC : ProofPayload :=
  { version := 1, session_id := List.replicate 16 0, r_final := 0,
    dc_final := 0, lock_duration_secs := 10, window_start_unix := 0,
    paired_turn_count := 3, conversation_hash := List.replicate 32 0,
    node_pubkey := List.replicate 32 0, payload_hash := List.replicate 32 0 }

/-- Sample deterministic stand-in for the injected SHA-256 (always 32 bytes). -/
def shaC : List Nat → List Nat := fun bs => List.replicate 32 (bs.length % 256)

/-- Sample deterministic stand-in for the injected signer (always 64 bytes). -/
def signC : List Nat → List Nat := fun bs => List.replicate 64 (bs.length % 256)

/-- Sample stand-in for the IEEE f64 bit-pattern encoding. -/
def bitsC : ℚ → Nat := fun _ => 0

/-- C1: every call to the attestation gate (can_generate, re-run by generate)
yields success or exactly one of four denial reasons in the fixed order
state ≠ Locked → NOT_LOCKED, duration < 8.0 → NOT_STABLE, aggregator unknown
→ SIGNAL_UNKNOWN, no pairs → WINDOW_EMPTY; on denial, generate returns the
same reason with no proof. -/
theorem C1_attestation_gate (state : FacelockState) (d : ℚ) (dc : DcResult)
    (w : ConversationWindow) (npk sid : List Nat) (rf : ℚ)
    (sign_fn sha256 : List Nat → List Nat) (f64bits : ℚ → Nat) (nowUnix : Nat) :
    (can_generate state d dc w = Except.error ProofReason.R204_PROOF_NOT_LOCKED
      ↔ state ≠ FacelockState.Locked)
    ∧ (can_generate state d dc w = Except.error ProofReason.R201_PROOF_NOT_STABLE
      ↔ state = FacelockState.Locked ∧ d < LOCKED_MIN_DURATION_SECS)
    ∧ (can_generate state d dc w = Except.error ProofReason.R202_PROOF_DC_UNKNOWN
      ↔ state = FacelockState.Locked ∧ LOCKED_MIN_DURATION_SECS ≤ d
          ∧ dc.is_known = false)
    ∧ (can_generate state d dc w = Except.error ProofReason.R203_PROOF_WINDOW_EMPTY
      ↔ state = FacelockState.Locked ∧ LOCKED_MIN_DURATION_SECS ≤ d
          ∧ dc.is_known = true ∧ w.paired_turns = [])
    ∧ (can_generate state d dc w = Except.ok ()
      ↔ state = FacelockState.Locked ∧ LOCKED_MIN_DURATION_SECS ≤ d
          ∧ dc.is_known = true ∧ w.paired_turns ≠ [])
    ∧ (∀ reason, can_generate state d dc w = Except.error reason →
        generate npk sid state d rf dc w sign_fn sha256 f64bits nowUnix =
          ProofResult.failure reason)
    ∧ (∀ reason, (ProofResult.failure reason).proof = none) := by
  refine ⟨?_, ?_, ?_, ?_, ?_, ?_, fun reason => rfl⟩
  · simp only [can_generate]
    split_ifs <;> simp_all [not_lt, List.isEmpty_iff]
  · simp only [can_generate]
    split_ifs <;> simp_all [not_lt, List.isEmpty_iff]
  · simp only [can_generate]
    split_ifs <;> simp_all [not_lt, List.isEmpty_iff]
  · simp only [can_generate]
    split_ifs <;> simp_all [not_lt, List.isEmpty_iff]
  · simp only [can_generate]
    split_ifs <;> simp_all [not_lt, List.isEmpty_iff]
  · intro reason h
    simp [generate, h]

/-- Witness for C1 at the claim's boundary inputs: 7.99 seconds is denied
NOT_STABLE and exactly 8.0 seconds passes the gate. -/
theorem C1_attestation_gate_witness :
    can_generate FacelockState.Locked 7.99 dcKnownC windowAB =
        Except.error ProofReason.R201_PROOF_NOT_STABLE
      ∧ can_generate FacelockState.Locked 8 dcKnownC windowAB = Except.ok () := by
  have h7 := C1_attestation_gate FacelockState.Locked 7.99 dcKnownC windowAB
    [] [] 0 (fun _ => []) (fun _ => []) (fun _ => 0) 0
  have h8 := C1_attestation_gate FacelockState.Locked 8 dcKnownC windowAB
    [] [] 0 (fun _ => []) (fun _ => []) (fun _ => 0) 0
  constructor
  · exact h7.2.1.mpr ⟨rfl, by norm_num [LOCKED_MIN_DURATION_SECS]⟩
  · exact h8.2.2.2.2.1.mpr
      ⟨rfl, by norm_num [LOCKED_MIN_DURATION_SECS], by decide, by decide⟩

/-- C2: verify_proof returns true iff the recomputed SHA-256 over the first
118 payload bytes equals the stored self-hash and the injected verifier
accepts the full payload bytes, signature and stored public key. -/
theorem C2_verify_proof_iff (p : Proof)
    (vf : List Nat → List Nat → List Nat → Bool)
    (sha256 : List Nat → List Nat) :
    verify_proof vf sha256 p = true ↔
      (sha256 (p.payload.to_bytes.take 118) = p.payload.payload_hash ∧
        vf p.payload.to_bytes p.signature p.payload.node_pubkey = true) := by
  simp only [verify_proof]
  split_ifs <;> simp_all

/-- Witness for C2: a proof whose self-hash matches the stand-in hash and
whose verifier accepts does verify. -/
theorem C2_verify_proof_iff_witness :
    verify_proof (fun _ _ _ => true) (fun _ => List.replicate 32 0)
      (Proof.new payloadC (List.replicate 64 0)) = true := by
  exact (C2_verify_proof_iff (Proof.new payloadC (List.replicate 64 0))
    (fun _ _ _ => true) (fun _ => List.replicate 32 0)).mpr ⟨rfl, rfl⟩

/-- C3: every proof returned by a successful generate has its self-hash
equal to the injected SHA-256 of the first 118 bytes of the final payload
serialization (all fields preceding the self-hash), and its signature is the
injected signer applied to the complete payload bytes including the
filled-in self-hash. -/
theorem C3_generate_binding (npk sid : List Nat) (state : FacelockState)
    (d rf : ℚ) (dc : DcResult) (w : ConversationWindow)
    (sign_fn sha256 : List Nat → List Nat) (f64bits : ℚ → Nat) (nowUnix : Nat)
    (pf : Proof)
    (hsid : sid.length = 16) (hnpk : npk.length = 32)
    (hsha : ∀ bs, (sha256 bs).length = 32)
    (hgen : generate npk sid state d rf dc w sign_fn sha256 f64bits nowUnix =
      ProofResult.success pf) :
    pf.payload.payload_hash = sha256 (pf.payload.to_bytes.take 118) ∧
      pf.signature = sign_fn pf.payload.to_bytes := by
  unfold generate at hgen
  cases hcg : can_generate state d dc w with
  | error reason =>
    rw [hcg] at hgen
    simp [ProofResult.failure, ProofResult.success] at hgen
  | ok u =>
    rw [hcg] at hgen
    simp only [ProofResult.success, ProofResult.mk.injEq, Option.some.injEq,
      and_true] at hgen
    subst hgen
    simp only [Proof.new]
    refine ⟨?_, ?_⟩
    · rw [ProofPayload.take118 _ hsid (hsha _) hnpk,
        ProofPayload.take118 _ hsid (hsha _) hnpk]
    · trivial

/-- Sample pair list used by the C3 witness generation. -/
def pairsC3 : List TurnPair := windowAB.paired_turns

/-- Payload assembled by the C3 witness generation before the self-hash. -/
def payload0C3 : ProofPayload :=
  { version := 1, session_id := List.replicate 16 2, r_final := bitsC 0.07,
    dc_final := bitsC (dcKnownC.value.getD 0),
    lock_duration_secs := ratAsU64 10,
    window_start_unix :=
      match pairsC3.head? with
      | some p =>
        match p.first.timestamp with
        | some _ => 0
        | none => 0
      | none => 0,
    paired_turn_count := pairsC3.length % 2 ^ 32,
    conversation_hash := hash_paired_turns shaC pairsC3,
    node_pubkey := List.replicate 32 3, payload_hash := List.replicate 32 0 }

/-- Final payload of the C3 witness generation. -/
def payloadC3 : ProofPayload :=
  { payload0C3 with payload_hash := shaC (payload0C3.to_bytes.take 118) }

/-- Proof produced by the C3 witness generation. -/
def proofC3 : Proof := Proof.new payloadC3 (signC payloadC3.to_bytes)

/-- Witness for C3: a concrete successful generation whose self-hash and
signature satisfy the binding. -/
theorem C3_generate_binding_witness :
    generate (List.replicate 32 3) (List.replicate 16 2) FacelockState.Locked
        10 0.07 dcKnownC windowAB signC shaC bitsC 0 =
      ProofResult.success proofC3
    ∧ proofC3.payload.payload_hash =
        shaC (proofC3.payload.to_bytes.take 118)
    ∧ proofC3.signature = signC proofC3.payload.to_bytes := by
  have hcg : can_generate FacelockState.Locked 10 dcKnownC windowAB =
      Except.ok () := by
    unfold can_generate
    rw [if_neg (by simp), if_neg (by norm_num [LOCKED_MIN_DURATION_SECS]),
      if_neg (by simp [dcKnownC, DcResult.success, DcResult.is_known]),
      if_neg (by decide)]
  have h1 : generate (List.replicate 32 3) (List.replicate 16 2)
      FacelockState.Locked 10 0.07 dcKnownC windowAB signC shaC bitsC 0 =
      ProofResult.success proofC3 := by
    unfold generate
    rw [hcg]
    rfl
  have h2 := C3_generate_binding (List.replicate 32 3) (List.replicate 16 2)
    FacelockState.Locked 10 0.07 dcKnownC windowAB signC shaC bitsC 0 proofC3
    (by simp) (by simp) (fun bs => by simp [shaC]) h1
  exact ⟨h1, h2.1, h2.2⟩

/-- C4: the 248-byte binary and 496-character lowercase-hex encodings of a
proof are exact round trips restoring every payload field and the
signature. -/
theorem C4_round_trip (p : Proof) (h : p.wf) :
    p.to_bytes.length = 248
    ∧ (Proof.from_bytes p.to_bytes).payload = p.payload
    ∧ (Proof.from_bytes p.to_bytes).signature = p.signature
    ∧ p.to_hex.length = 496
    ∧ (∀ c ∈ p.to_hex, isLowerHexDigit c = true)
    ∧ Proof.from_hex p.to_hex = some (Proof.from_bytes p.to_bytes) := by
  have h1 := Proof.proof_bytes_length p h
  have h2 := Proof.proof_from_to p h
  refine ⟨h1, h2.1, h2.2, ?_, ?_, Proof.from_hex_to_hex p h⟩
  · show (hexChars p.to_bytes).length = 496
    rw [hexChars_length, h1]
  · intro c hc
    exact hexChars_lower (Proof.proof_bytes_wf p h) c hc

/-- Witness for C4: a concrete well-formed proof round-trips. -/
theorem C4_round_trip_witness :
    (Proof.new payloadC (List.replicate 64 0)).wf ∧
      (Proof.from_bytes (Proof.new payloadC (List.replicate 64 0)).to_bytes).payload
        = payloadC := by
  have hw : (Proof.new payloadC (List.replicate 64 0)).wf := by
    unfold Proof.wf ProofPayload.wf
    decide
  exact ⟨hw, (C4_round_trip _ hw).2.1⟩

/-- Pair whose second text carries an embedded 0x00 byte. -/
def pairX : TurnPair :=
  { first := { speaker := [97], text := [98], timestamp := none, r := 0 },
    second := { speaker := [99], text := [100, 0, 101], timestamp := none, r := 0 } }

/-- Different pair whose second speaker carries an embedded 0x00 byte,
colliding with pairX in the pre-hash byte stream. -/
def pairY : TurnPair :=
  { first := { speaker := [97], text := [98], timestamp := none, r := 0 },
    second := { speaker := [99, 0, 100], text := [101], timestamp := none, r := 0 } }

/-- Counterexample for C5 as stated: two pair sequences with distinct
(speaker, text) content produce the same separator-delimited pre-hash byte
stream, because a field may itself contain the 0x00 separator byte. -/
theorem C5_injectivity_counterexample :
    preHashBytes [pairX] = preHashBytes [pairY]
      ∧ [pairX].map pairContent ≠ [pairY].map pairContent := by
  constructor
  · decide
  · decide

/-- C5 (amended): the content hash is a deterministic function of exactly
the ordered (speaker, text) fields, and the separator-delimited pre-hash
byte stream is injective over pair sequences none of whose speaker or text
fields contains the 0x00 separator byte. -/
theorem C5_content_hash_amended (sha256 : List Nat → List Nat)
    (ps qs : List TurnPair) :
    (ps.map pairContent = qs.map pairContent →
      hash_paired_turns sha256 ps = hash_paired_turns sha256 qs)
    ∧ ((∀ p ∈ ps, pairNulFree p) → (∀ q ∈ qs, pairNulFree q) →
      preHashBytes ps = preHashBytes qs →
      ps.map pairContent = qs.map pairContent) :=
  ⟨fun h => congrArg sha256 (preHashBytes_congr ps qs h),
    preHashBytes_inj ps qs⟩

/-- Sample NUL-free pair. -/
def pairAB : TurnPair := { first := turnA, second := turnB }

/-- Witness for the amended C5 at a concrete NUL-free pair sequence. -/
theorem C5_content_hash_amended_witness :
    (∀ p ∈ [pairAB], pairNulFree p) ∧
      [pairAB].map pairContent = [pairAB].map pairContent := by
  have hnf : ∀ p ∈ [pairAB], pairNulFree p := by
    intro p hp
    simp only [List.mem_singleton] at hp
    subst hp
    exact ⟨by decide, by decide, by decide, by decide⟩
  exact ⟨hnf, (C5_content_hash_amended shaC [pairAB] [pairAB]).2 hnf hnf rfl⟩

/-- C6: each update transitions exactly per the hysteresis table (Waiting →
Approaching iff r < 0.25; Approaching → Locked iff r < 0.15 with stable
duration ≥ 8000 ms, else → Drift iff r ≥ 0.30, else stays; Locked → Drift
iff r ≥ 0.15; Drift → Approaching iff r < 0.25), the output reports the
committed state, and the state-entry instant is reset exactly when the
resulting state differs. -/
theorem C6_engine_transitions (e : FacelockEngine) (now : Nat) (r : ℚ) :
    ((FacelockEngine.update e now r).1.state =
      match e.state with
      | FacelockState.Waiting =>
        if r < R_THRESHOLD_APPROACHING then FacelockState.Approaching
        else FacelockState.Waiting
      | FacelockState.Approaching =>
        if r < R_THRESHOLD_LOCKED ∧
            STABILITY_DURATION_MS ≤ (FacelockEngine.update e now r).2.stable_ms
          then FacelockState.Locked
        else if R_THRESHOLD_DRIFT ≤ r then FacelockState.Drift
        else FacelockState.Approaching
      | FacelockState.Locked =>
        if R_THRESHOLD_LOCKED ≤ r then FacelockState.Drift
        else FacelockState.Locked
      | FacelockState.Drift =>
        if r < R_THRESHOLD_APPROACHING then FacelockState.Approaching
        else FacelockState.Drift)
    ∧ ((FacelockEngine.update e now r).2.state =
        (FacelockEngine.update e now r).1.state)
    ∧ ((FacelockEngine.update e now r).1.state_since =
        if (FacelockEngine.update e now r).1.state ≠ e.state then now
        else e.state_since) := by
  obtain ⟨st, ss, lr, lcs, fi, li, uc⟩ := e
  refine ⟨?_, ?_, ?_⟩
  · cases st <;>
      simp only [FacelockEngine.update, FacelockEngine.compute_transition,
        StateOutput.new] <;>
      split_ifs <;>
      simp_all [ge_iff_le, not_lt, not_le]
  · cases st <;>
      simp only [FacelockEngine.update, FacelockEngine.compute_transition,
        StateOutput.new]
  · cases st <;>
      simp only [FacelockEngine.update, FacelockEngine.compute_transition,
        StateOutput.new]

/-- Witness for C6: from the fresh engine (Waiting), an update with scalar 0
moves to Approaching. -/
theorem C6_engine_transitions_witness :
    (FacelockEngine.update (FacelockEngine.new 0) 5 0).1.state =
      FacelockState.Approaching := by
  have h := (C6_engine_transitions (FacelockEngine.new 0) 5 0).1
  rw [h]
  show (if (0 : ℚ) < R_THRESHOLD_APPROACHING then FacelockState.Approaching
    else FacelockState.Waiting) = FacelockState.Approaching
  rw [if_pos (by norm_num [R_THRESHOLD_APPROACHING])]

/-- C7: the lock-candidate timer starts at the first update with scalar
below 0.15, is cleared (reported 0) by any update at or above 0.15, the
reported stable duration is the elapsed time since the timer started, and
both the timer and the reported duration are computed identically in all
four engine states. -/
theorem C7_lock_candidate_timer (e : FacelockEngine) (now : Nat) (r : ℚ)
    (σ : FacelockState) :
    (R_THRESHOLD_LOCKED ≤ r →
      (FacelockEngine.update e now r).1.lock_candidate_since = none ∧
        (FacelockEngine.update e now r).2.stable_ms = 0)
    ∧ (r < R_THRESHOLD_LOCKED → e.lock_candidate_since = none →
      (FacelockEngine.update e now r).1.lock_candidate_since = some now ∧
        (FacelockEngine.update e now r).2.stable_ms = now - now)
    ∧ (∀ s, r < R_THRESHOLD_LOCKED → e.lock_candidate_since = some s →
      (FacelockEngine.update e now r).1.lock_candidate_since = some s ∧
        (FacelockEngine.update e now r).2.stable_ms = now - s)
    ∧ ((FacelockEngine.update { e with state := σ } now r).2.stable_ms =
        (FacelockEngine.update e now r).2.stable_ms)
    ∧ ((FacelockEngine.update { e with state := σ } now r).1.lock_candidate_since
        = (FacelockEngine.update e now r).1.lock_candidate_since) := by
  obtain ⟨st, ss, lr, lcs, fi, li, uc⟩ := e
  refine ⟨?_, ?_, ?_, ?_, ?_⟩
  · intro h
    simp only [FacelockEngine.update, StateOutput.new,
      if_neg (not_lt.mpr h)]
    constructor <;> trivial
  · intro h1 h2
    simp only at h2
    subst h2
    simp only [FacelockEngine.update, StateOutput.new, if_pos h1]
    constructor <;> trivial
  · intro s h1 h2
    simp only at h2
    subst h2
    simp only [FacelockEngine.update, StateOutput.new, if_pos h1]
    constructor <;> trivial
  · rfl
  · rfl

/-- Witness for C7: an update with scalar 1 (≥ 0.15) clears the timer and
reports a stable duration of 0. -/
theorem C7_lock_candidate_timer_witness :
    R_THRESHOLD_LOCKED ≤ (1 : ℚ) ∧
      (FacelockEngine.update (FacelockEngine.new 0) 5 1).1.lock_candidate_since
        = none ∧
      (FacelockEngine.update (FacelockEngine.new 0) 5 1).2.stable_ms = 0 := by
  have h1 : R_THRESHOLD_LOCKED ≤ (1 : ℚ) := by norm_num [R_THRESHOLD_LOCKED]
  have h := (C7_lock_candidate_timer (FacelockEngine.new 0) 5 1
    FacelockState.Waiting).1 h1
  exact ⟨h1, h.1, h.2⟩

/-- C8: the aggregator checks its preconditions in the fixed order
(insufficient turns, single speaker, no pairs), on success returns the
clamped fixed-weight sum of the five sub-signals with the stated weights,
and classifies the value by the 0.10 / 0.20 cut points for reporting
without changing the returned scalar. -/
theorem C8_aggregator (calc_signals : List TurnPair → DcSignals)
    (w : ConversationWindow) :
    (w.turns.length < 2 →
      calculate calc_signals w =
        DcResult.unknown DcReason.R012_DC_UNKNOWN_INSUFFICIENT_TURNS)
    ∧ (2 ≤ w.turns.length → w.speaker_count < 2 →
      calculate calc_signals w =
        DcResult.unknown DcReason.R011_DC_UNKNOWN_SINGLE_SPEAKER)
    ∧ (2 ≤ w.turns.length → 2 ≤ w.speaker_count → w.paired_turns = [] →
      calculate calc_signals w =
        DcResult.unknown DcReason.R016_DC_UNKNOWN_NO_PAIRS)
    ∧ (2 ≤ w.turns.length → 2 ≤ w.speaker_count → w.paired_turns ≠ [] →
      calculate calc_signals w =
        DcResult.success (clamp01 (calc_signals w.paired_turns).weighted_sum)
          (calc_signals w.paired_turns) w.paired_turns.length w.speaker_count)
    ∧ (∀ v signals pc sc,
        (DcResult.success v signals pc sc).value = some v
        ∧ (DcResult.success v signals pc sc).reason =
            (if v < DC_THRESHOLD_LOCKED then DcReason.R015_DC_LOW_COHERENT
             else if v < DC_THRESHOLD_DRIFT then DcReason.R010_DC_COMPUTED
             else DcReason.R014_DC_HIGH_DRIFT))
    ∧ (∀ s : DcSignals, s.weighted_sum =
        s.thematic_drift * 0.31 + s.emotional_volatility * 0.28
          + s.logical_breaks * 0.22 + s.qa_mismatch * 0.12
          + s.reference_decay * 0.07)
    ∧ (∀ q : ℚ, 0 ≤ clamp01 q ∧ clamp01 q ≤ 1) := by
  refine ⟨?_, ?_, ?_, ?_, ?_, ?_, ?_⟩
  · intro h
    simp only [calculate, if_pos h]
  · intro h1 h2
    simp only [calculate, if_neg (by omega : ¬ w.turns.length < 2), if_pos h2]
  · intro h1 h2 h3
    simp only [calculate, if_neg (by omega : ¬ w.turns.length < 2),
      if_neg (by omega : ¬ w.speaker_count < 2)]
    rw [if_pos (List.isEmpty_iff.mpr h3)]
  · intro h1 h2 h3
    simp only [calculate, if_neg (by omega : ¬ w.turns.length < 2),
      if_neg (by omega : ¬ w.speaker_count < 2)]
    rw [if_neg (fun hc => h3 (List.isEmpty_iff.mp hc))]
  · intro v signals pc sc
    refine ⟨rfl, ?_⟩
    simp only [DcResult.success, DC_THRESHOLD_LOCKED, DC_THRESHOLD_APPROACHING,
      DC_THRESHOLD_DRIFT]
    split_ifs <;> first | rfl | linarith
  · intro s
    simp only [DcSignals.weighted_sum, DC_WEIGHT_THEMATIC, DC_WEIGHT_EMOTIONAL,
      DC_WEIGHT_LOGICAL, DC_WEIGHT_QA_MISMATCH, DC_WEIGHT_REFERENCE]
  · intro q
    unfold clamp01
    split_ifs with ha hb
    · exact ⟨le_refl 0, by norm_num⟩
    · exact ⟨by norm_num, le_refl 1⟩
    · exact ⟨not_lt.mp ha, not_lt.mp hb⟩

/-- Witness for C8: the empty window is denied with INSUFFICIENT_TURNS. -/
theorem C8_aggregator_witness :
    ConversationWindow.new.turns.length < 2 ∧
      calculate (fun _ => DcSignals.zero) ConversationWindow.new =
        DcResult.unknown DcReason.R012_DC_UNKNOWN_INSUFFICIENT_TURNS := by
  have h : ConversationWindow.new.turns.length < 2 := by
    simp [ConversationWindow.new]
  exact ⟨h, (C8_aggregator _ _).1 h⟩

/-- Helper to build a one-byte-speaker turn with an empty text. -/
def mkTurn (sp ts : Nat) : Turn :=
  { speaker := [sp], text := [], timestamp := some ts, r := 0 }

/-- Window holding 11 turns of speaker A (byte 65) and 10 of speaker B
(byte 66), arranged A B A A A A A A A A A A B B B B B B B B B, used to
exhibit the unadjusted removal loop. -/
def windowOverCap : ConversationWindow :=
  { turns := [mkTurn 65 0, mkTurn 66 1, mkTurn 65 2, mkTurn 65 3, mkTurn 65 4,
      mkTurn 65 5, mkTurn 65 6, mkTurn 65 7, mkTurn 65 8, mkTurn 65 9,
      mkTurn 65 10, mkTurn 65 11, mkTurn 66 12, mkTurn 66 13, mkTurn 66 14,
      mkTurn 66 15, mkTurn 66 16, mkTurn 66 17, mkTurn 66 18, mkTurn 66 19,
      mkTurn 66 20], window_duration := 30 }

/-- Counterexample for C9 as stated: on this window (timestamps all present,
monotone, none older than the horizon) the append of a B-turn marks index 0
(oldest A, 11 As) and index 1 (oldest B, 11 Bs); the removal loop drops
index 0, shifting the deque, so its second call drops the A originally at
index 2 instead of the marked B, and speaker B keeps 11 surviving entries,
violating the claimed 10-entry cap. -/
theorem C9_cap_counterexample :
    windowOverCap.window_duration = WINDOW_DURATION_SECS
    ∧ (∀ u ∈ windowOverCap.turns ++ [mkTurn 66 21], u.timestamp.isSome = true)
    ∧ List.Sorted (· ≤ ·)
        ((windowOverCap.turns ++ [mkTurn 66 21]).map
          (fun u => u.timestamp.getD 0))
    ∧ ¬ (((ConversationWindow.add_turn windowOverCap 21
          (mkTurn 66 21)).turns).countP (fun u => decide (u.speaker = [66]))
        ≤ MAX_TURNS_PER_SPEAKER) := by
  refine ⟨rfl, by decide, by decide, by decide⟩

/-- C9 (amended): after every add(turn) on a window in which no speaker
exceeds the 10-entry cap before the append — the invariant every window
reachable through the public constructors and add_turn satisfies, the turn
store being private — at most one index is marked, the removal loop is
exact, and the window invariant holds: survivors are a subsequence of the
appended list (insertion order preserved); age eviction drops only from the
front (a suffix survives) and, for monotone timestamps, no survivor is older
than the horizon at the moment of the append; each speaker keeps at most 10
entries, and the survivors of each speaker are exactly its newest entries
(the oldest beyond the cap dropped), preserving relative order. -/
theorem C9_window_invariants (w : ConversationWindow) (now : Nat) (turn : Turn)
    (hdur : w.window_duration = WINDOW_DURATION_SECS)
    (hcap : ∀ s, w.turns.countP (fun u => decide (u.speaker = s)) ≤
      MAX_TURNS_PER_SPEAKER)
    (hsome : ∀ u ∈ w.turns ++ [turn], u.timestamp.isSome = true)
    (hsort : List.Sorted (· ≤ ·)
      ((w.turns ++ [turn]).map (fun u => u.timestamp.getD 0))) :
    ((ConversationWindow.add_turn w now turn).turns).Sublist (w.turns ++ [turn])
    ∧ (ConversationWindow.pruneAge now w.window_duration (w.turns ++ [turn]))
        <:+ (w.turns ++ [turn])
    ∧ (∀ u ∈ (ConversationWindow.add_turn w now turn).turns,
        now - u.timestamp.getD 0 ≤ WINDOW_DURATION_SECS)
    ∧ (∀ s, ((ConversationWindow.add_turn w now turn).turns).countP
        (fun u => decide (u.speaker = s)) ≤ MAX_TURNS_PER_SPEAKER)
    ∧ (∀ s, ((ConversationWindow.add_turn w now turn).turns).filter
        (fun u => decide (u.speaker = s)) =
        ((ConversationWindow.pruneAge now w.window_duration
            (w.turns ++ [turn])).filter (fun u => decide (u.speaker = s))).drop
          (((ConversationWindow.pruneAge now w.window_duration
              (w.turns ++ [turn])).filter
                (fun u => decide (u.speaker = s))).length
            - MAX_TURNS_PER_SPEAKER)) := by
  have key : (ConversationWindow.add_turn w now turn).turns =
      ConversationWindow.pruneSpeakerCap MAX_TURNS_PER_SPEAKER
        (ConversationWindow.pruneAge now w.window_duration
          (w.turns ++ [turn])) := rfl
  have hsub : (ConversationWindow.pruneAge now w.window_duration
      (w.turns ++ [turn])).Sublist (w.turns ++ [turn]) :=
    (ConversationWindow.pruneAge_suffix _ _ _).sublist
  have hbound : ∀ s, (ConversationWindow.pruneAge now w.window_duration
      (w.turns ++ [turn])).countP (fun u => decide (u.speaker = s)) ≤
      MAX_TURNS_PER_SPEAKER + 1 := by
    intro s
    have h1 := List.Sublist.countP_le (fun u => decide (u.speaker = s)) hsub
    have h2 := List.countP_append (fun u => decide (u.speaker = s))
      w.turns [turn]
    have h3 : [turn].countP (fun u => decide (u.speaker = s)) ≤ 1 :=
      List.countP_le_length _
    have h4 := hcap s
    omega
  have hone : ∀ s1 s2,
      MAX_TURNS_PER_SPEAKER < (ConversationWindow.pruneAge now
        w.window_duration (w.turns ++ [turn])).countP
          (fun u => decide (u.speaker = s1)) →
      MAX_TURNS_PER_SPEAKER < (ConversationWindow.pruneAge now
        w.window_duration (w.turns ++ [turn])).countP
          (fun u => decide (u.speaker = s2)) → s1 = s2 := by
    have hkey : ∀ s, MAX_TURNS_PER_SPEAKER <
        (ConversationWindow.pruneAge now w.window_duration
          (w.turns ++ [turn])).countP (fun u => decide (u.speaker = s)) →
        s = turn.speaker := by
      intro s hs
      by_contra hne
      have h1 := List.Sublist.countP_le (fun u => decide (u.speaker = s)) hsub
      have h2 := List.countP_append (fun u => decide (u.speaker = s))
        w.turns [turn]
      have h3 : [turn].countP (fun u => decide (u.speaker = s)) = 0 := by
        simp only [List.countP_cons, List.countP_nil, Nat.zero_add,
          decide_eq_true_eq]
        rw [if_neg (fun h => hne h.symm)]
      have h4 := hcap s
      omega
    intro s1 s2 hs1 hs2
    rw [hkey s1 hs1, hkey s2 hs2]
  have heq := ConversationWindow.pruneSpeakerCap_eq_capFilter
    MAX_TURNS_PER_SPEAKER _ hbound hone
  refine ⟨?_, ConversationWindow.pruneAge_suffix _ _ _, ?_, ?_, ?_⟩
  · rw [key]
    exact (ConversationWindow.pruneSpeakerCap_sublist _ _).trans hsub
  · intro u hu
    rw [key] at hu
    have hu2 := (ConversationWindow.pruneSpeakerCap_sublist _ _).subset hu
    have hage := ConversationWindow.pruneAge_age now w.window_duration
      (w.turns ++ [turn]) hsome hsort u hu2
    rw [hdur] at hage
    exact hage
  · intro s
    rw [key, heq]
    exact ConversationWindow.capFilter_count _ _ _
  · intro s
    rw [key, heq]
    exact ConversationWindow.capFilter_filter _ _ _

/-- Sample third turn appended in the C9 witness. -/
def turnC : Turn := { speaker := [65], text := [74], timestamp := some 2, r := 0 }

/-- Witness for the amended C9 at a concrete pre-capped window with monotone
timestamps. -/
theorem C9_window_invariants_witness :
    windowAB.window_duration = WINDOW_DURATION_SECS ∧
      (∀ s, windowAB.turns.countP (fun u => decide (u.speaker = s)) ≤
        MAX_TURNS_PER_SPEAKER) ∧
      ((ConversationWindow.add_turn windowAB 2 turnC).turns).Sublist
        (windowAB.turns ++ [turnC]) := by
  have hdur : windowAB.window_duration = WINDOW_DURATION_SECS := rfl
  have hcap : ∀ s, windowAB.turns.countP (fun u => decide (u.speaker = s)) ≤
      MAX_TURNS_PER_SPEAKER := by
    intro s
    have h1 : windowAB.turns.countP (fun u => decide (u.speaker = s)) ≤
        windowAB.turns.length := List.countP_le_length _
    have h2 : windowAB.turns.length = 2 := rfl
    rw [h2] at h1
    exact le_trans h1 (by norm_num [MAX_TURNS_PER_SPEAKER])
  have hsome : ∀ u ∈ windowAB.turns ++ [turnC], u.timestamp.isSome = true := by
    decide
  have hsort : List.Sorted (· ≤ ·)
      ((windowAB.turns ++ [turnC]).map (fun u => u.timestamp.getD 0)) := by
    decide
  exact ⟨hdur, hcap,
    (C9_window_invariants windowAB 2 turnC hdur hcap hsome hsort).1⟩

/-- C10: paired_turns returns exactly the adjacent index pairs whose turns
have different speakers, in temporal order; fewer than 2 turns yields no
pairs, and a window in which adjacent turns always share a speaker yields no
pairs. -/
theorem C10_pairs (w : ConversationWindow) :
    (w.paired_turns = (w.turns.zip w.turns.tail).filterMap
      (fun ab => if ab.1.speaker ≠ ab.2.speaker
        then some { first := ab.1, second := ab.2 } else none))
    ∧ (w.turns.length < 2 → w.paired_turns = [])
    ∧ (List.Chain' (fun a b : Turn => a.speaker = b.speaker) w.turns →
        w.paired_turns = []) := by
  refine ⟨ConversationWindow.adjPairs_zip_spec w.turns, ?_,
    ConversationWindow.adjPairs_chain_same w.turns⟩
  intro h
  show ConversationWindow.adjPairs w.turns = []
  rcases hts : w.turns with _ | ⟨a, _ | ⟨b, rest⟩⟩
  · rfl
  · rfl
  · rw [hts] at h
    simp only [List.length_cons] at h
    omega

/-- Sample second A-turn for the C10 witness run A,A,B. -/
def turnA2 : Turn := { speaker := [65], text := [75], timestamp := some 1, r := 0 }

/-- Witness for C10: the run A,A,B yields exactly the pair of the second A
with B, and an all-A window yields no pairs. -/
theorem C10_pairs_witness :
    ConversationWindow.paired_turns
        { turns := [turnA, turnA2, turnB], window_duration := 30 } =
      [{ first := turnA2, second := turnB }]
    ∧ List.Chain' (fun a b : Turn => a.speaker = b.speaker)
        ({ turns := [turnA, turnA2], window_duration := 30 } :
          ConversationWindow).turns
    ∧ ConversationWindow.paired_turns
        { turns := [turnA, turnA2], window_duration := 30 } = [] := by
  refine ⟨by decide, ?_, ?_⟩
  · simp [List.chain'_cons, turnA, turnA2]
  · exact (C10_pairs { turns := [turnA, turnA2], window_duration := 30 }).2.2
      (by simp [List.chain'_cons, turnA, turnA2])

end Framebreaker
